import Mathlib

/-
Verification of the translation-pipeline backend.

Shallow embedding of the Python sources:
  document_processor.py  (DocumentProcessor: text cleaning, extraction, export)
  translation_engine.py  (TranslationEngine.translate: empty-text guard, remote call)
  main.py                (run_translation_workflow, download_translation, job store)
  workflow_manager.py    (an alternative LangGraph pipeline, not wired to the API)

External effects (the HTTP call of the translation engine, the format renderers,
the filesystem) are modelled as oracles passed to the embedded functions; every
observable action of one pipeline run is recorded in an explicit event trace.
-/

/-! ## Python character classes

The cleaning function of document_processor.py line 85 keeps a character when
Python reports it printable or whitespace, and then strips leading and trailing
whitespace.  pyIsSpace lists exactly the code points of the Python str
whitespace class (the set used both by str.isspace and by str.strip with no
arguments).  pyIsPrintable models str.isprintable: it is exact on ASCII, on the
Latin-1 control block and on every Unicode whitespace code point; the remaining
format, surrogate, private-use and unassigned code points, which no input in
this development contains, are treated as printable. -/

/-- Code points of the Python str whitespace class (str.isspace / str.strip). -/
def pyIsSpace (c : Char) : Bool :=
  let n := c.toNat
  decide (n = 0x20 ∨ (0x9 ≤ n ∧ n ≤ 0xd) ∨ (0x1c ≤ n ∧ n ≤ 0x1f) ∨ n = 0x85 ∨
    n = 0xa0 ∨ n = 0x1680 ∨ (0x2000 ≤ n ∧ n ≤ 0x200a) ∨ n = 0x2028 ∨ n = 0x2029 ∨
    n = 0x202f ∨ n = 0x205f ∨ n = 0x3000)

/-- Model of Python str.isprintable: false for control characters and for every
whitespace character other than the plain space 0x20. -/
def pyIsPrintable (c : Char) : Bool :=
  let n := c.toNat
  !(decide (n < 0x20 ∨ (0x7f ≤ n ∧ n ≤ 0xa0) ∨ n = 0xad) ||
    (pyIsSpace c && !decide (n = 0x20)))

/-- Predicate of the comprehension in DocumentProcessor._clean_text line 85:
a character is kept when it is printable or whitespace. -/
def pyKeep (c : Char) : Bool :=
  pyIsPrintable c || pyIsSpace c

/-! ## Python str.strip -/

/-- Drop leading Python whitespace, the left half of str.strip. -/
def pyStripLeft (l : List Char) : List Char :=
  l.dropWhile pyIsSpace

/-- Drop trailing Python whitespace, the right half of str.strip. -/
def pyStripRight (l : List Char) : List Char :=
  (l.reverse.dropWhile pyIsSpace).reverse

/-- Model of Python str.strip with no arguments on a character list. -/
def pyStrip (l : List Char) : List Char :=
  pyStripRight (pyStripLeft l)

/-- Model of Python str.strip on a string. -/
def pyStripStr (s : String) : String :=
  (pyStrip s.toList).asString

/-- Embedding of DocumentProcessor._clean_text lines 84 and 85 for a string
argument: keep the printable-or-whitespace characters, then strip. -/
def cleanChars (l : List Char) : List Char :=
  pyStrip (l.filter pyKeep)

/-- Embedding of DocumentProcessor._clean_text on a present string value. -/
def cleanText (s : String) : String :=
  (cleanChars s.toList).asString

/-- Embedding of DocumentProcessor._clean_text lines 81 to 85.  The Python
argument is arbitrary; None is modelled as none, a string value as some.  A
non-string value goes through str() first, which this model leaves abstract by
taking the resulting string directly. -/
def cleanValue (v : Option String) : String :=
  match v with
  | none => ""
  | some s => cleanText s

/-! ### Lemmas about strip and clean -/

theorem dropWhile_head_false {α : Type} {p : α → Bool} :
    ∀ {l : List α} {a : α} {t : List α}, List.dropWhile p l = a :: t → p a = false := by
  intro l
  induction l with
  | nil => intro a t h; simp [List.dropWhile] at h
  | cons x xs ih =>
    intro a t h
    by_cases hx : p x
    · rw [List.dropWhile_cons_of_pos hx] at h
      exact ih h
    · rw [List.dropWhile_cons_of_neg hx] at h
      cases h
      simpa using hx

theorem pyStripLeft_idem (l : List Char) :
    pyStripLeft (pyStripLeft l) = pyStripLeft l := by
  unfold pyStripLeft
  cases h : l.dropWhile pyIsSpace with
  | nil => simp
  | cons a t =>
    rw [List.dropWhile_cons_of_neg]
    simp [dropWhile_head_false h]

theorem pyStripRight_eq (l : List Char) :
    pyStripRight l = (pyStripLeft l.reverse).reverse := rfl

theorem pyStripRight_idem (l : List Char) :
    pyStripRight (pyStripRight l) = pyStripRight l := by
  rw [pyStripRight_eq, pyStripRight_eq, List.reverse_reverse, pyStripLeft_idem]

theorem pyStripRight_append (l : List Char) :
    ∃ t, l = pyStripRight l ++ t := by
  refine ⟨(l.reverse.takeWhile pyIsSpace).reverse, ?_⟩
  rw [pyStripRight]
  rw [← List.reverse_append, List.takeWhile_append_dropWhile, List.reverse_reverse]

theorem pyStripLeft_of_stripped {l : List Char} (h : pyStripLeft l = l) :
    pyStripLeft (pyStripRight l) = pyStripRight l := by
  cases hr : pyStripRight l with
  | nil => simp [pyStripLeft, List.dropWhile]
  | cons a t =>
    obtain ⟨u, hu⟩ := pyStripRight_append l
    rw [hr] at hu
    have ha : pyIsSpace a = false := by
      have hl : List.dropWhile pyIsSpace l = a :: (t ++ u) := by
        have h2 : List.dropWhile pyIsSpace l = l := h
        rw [h2, hu]; simp
      exact dropWhile_head_false hl
    unfold pyStripLeft
    rw [List.dropWhile_cons_of_neg (by simp [ha])]

theorem pyStrip_idem (l : List Char) : pyStrip (pyStrip l) = pyStrip l := by
  unfold pyStrip
  rw [pyStripLeft_of_stripped (pyStripLeft_idem l), pyStripRight_idem]

theorem pyStripLeft_sublist (l : List Char) : List.Sublist (pyStripLeft l) l :=
  List.dropWhile_sublist pyIsSpace

theorem pyStripRight_sublist (l : List Char) : List.Sublist (pyStripRight l) l := by
  have h := (List.dropWhile_sublist (l := l.reverse) pyIsSpace).reverse
  rwa [List.reverse_reverse] at h

theorem pyStrip_sublist (l : List Char) : List.Sublist (pyStrip l) l :=
  (pyStripRight_sublist (pyStripLeft l)).trans (pyStripLeft_sublist l)

theorem cleanChars_sublist (l : List Char) : List.Sublist (cleanChars l) l :=
  (pyStrip_sublist (l.filter pyKeep)).trans (List.filter_sublist l)

theorem cleanChars_keep {l : List Char} {c : Char} (h : c ∈ cleanChars l) :
    pyKeep c = true :=
  (List.mem_filter.mp ((pyStrip_sublist (l.filter pyKeep)).subset h)).2

theorem cleanChars_idem (l : List Char) : cleanChars (cleanChars l) = cleanChars l := by
  have hf : List.filter pyKeep (cleanChars l) = cleanChars l :=
    List.filter_eq_self.mpr (fun c hc => cleanChars_keep hc)
  calc cleanChars (cleanChars l)
      = pyStrip (List.filter pyKeep (cleanChars l)) := rfl
    _ = pyStrip (cleanChars l) := by rw [hf]
    _ = pyStrip (pyStrip (List.filter pyKeep l)) := rfl
    _ = pyStrip (List.filter pyKeep l) := pyStrip_idem _
    _ = cleanChars l := rfl

theorem toList_asString (l : List Char) : (l.asString).toList = l := rfl

/-- C10: the text-cleaning function is idempotent; cleaning a string twice gives
the same result as cleaning it once. -/
theorem clean_text_idempotent (s : String) : cleanText (cleanText s) = cleanText s := by
  unfold cleanText
  rw [toList_asString, cleanChars_idem]

/-- C9: the text-cleaning function never fails and never returns null: it sends
None and the empty string to the empty string, and on any string it only removes
characters (sublist), keeps exactly printable-or-whitespace characters, returns
a fully stripped result, and, when nothing is removable, performs a plain strip. -/
theorem clean_text_characterization :
    cleanValue none = "" ∧ cleanValue (some "") = "" ∧
    (∀ s : String, cleanValue (some s) = cleanText s) ∧
    (∀ s : String, List.Sublist (cleanText s).toList s.toList) ∧
    (∀ (s : String) (c : Char), c ∈ (cleanText s).toList → pyKeep c = true) ∧
    (∀ s : String, pyStrip (cleanText s).toList = (cleanText s).toList) ∧
    (∀ s : String, (∀ c ∈ s.toList, pyKeep c = true) → cleanText s = pyStripStr s) := by
  refine ⟨rfl, rfl, fun s => rfl, fun s => ?_, fun s c hc => ?_, fun s => ?_, fun s h => ?_⟩
  · rw [cleanText, toList_asString]
    exact cleanChars_sublist s.toList
  · rw [cleanText, toList_asString] at hc
    exact cleanChars_keep hc
  · rw [cleanText, toList_asString]
    unfold cleanChars
    rw [pyStrip_idem]
  · rw [cleanText, pyStripStr, cleanChars]
    rw [List.filter_eq_self.mpr h]

/-! ## Text blocks and extraction

A Text Block is the unit of work of the pipeline: extracted text plus a style
tag (document_processor.py extract_paragraphs, main.py translation loop). -/

/-- A styled paragraph extracted from a document. -/
structure Para where
  text : String
  style : String
  deriving DecidableEq

/-- Code points at which Python str.splitlines breaks a line. -/
def pyIsLineBreak (c : Char) : Bool :=
  let n := c.toNat
  decide (n = 0xa ∨ n = 0xd ∨ n = 0xb ∨ n = 0xc ∨ (0x1c ≤ n ∧ n ≤ 0x1e) ∨
    n = 0x85 ∨ n = 0x2028 ∨ n = 0x2029)

def pySplitLinesAux : List Char → List Char → List String
  | [], acc => if acc.isEmpty then [] else [acc.reverse.asString]
  | '\r' :: '\n' :: rest, acc => acc.reverse.asString :: pySplitLinesAux rest []
  | c :: rest, acc =>
    if pyIsLineBreak c then acc.reverse.asString :: pySplitLinesAux rest []
    else pySplitLinesAux rest (c :: acc)

/-- Model of Python str.splitlines: split at line-boundary characters, treating
a carriage-return line-feed pair as one boundary, with no trailing empty line. -/
def pySplitLines (s : String) : List String :=
  pySplitLinesAux s.toList []

/-- Embedding of the .txt branch of DocumentProcessor.extract_paragraphs lines
102 to 107: keep the lines whose raw text strips to non-empty, then clean each
kept line into a block of style Normal. -/
def extractTxt (content : String) : List Para :=
  ((pySplitLines content).filter (fun l => pyStripStr l ≠ "")).map
    (fun l => { text := cleanText l, style := "Normal" })

/-- Embedding of the .docx branch of DocumentProcessor.extract_paragraphs lines
93 to 100.  The python-docx Document object is external; rawParas holds the
(paragraph text, style name) pairs it yields, where the style name is the
getattr(p.style, "name", "Normal") value. -/
def extractDocx (rawParas : List (String × String)) : List Para :=
  rawParas.filterMap (fun pr =>
    let txt := cleanText pr.1
    if txt ≠ "" then some { text := txt, style := pr.2 } else none)

/-- Embedding of the .epub branch of DocumentProcessor.extract_paragraphs lines
125 to 133.  The parsed book is external; items holds the (tag text, tag name)
pairs produced by BeautifulSoup over the document items. -/
def extractEpub (items : List (String × String)) : List Para :=
  items.filterMap (fun it =>
    let txt := cleanText it.1
    if txt ≠ "" then some { text := txt, style := it.2 } else none)

/-- Embedding of the .pdf branch of DocumentProcessor.extract_paragraphs lines
109 to 123.  The reader is external; pages holds the page.extract_text()
results, the empty string standing for a falsy result.  The OCR fallback,
guarded by an optional import, is not modelled. -/
def extractPdf (pages : List String) : List Para :=
  pages.flatMap (fun text =>
    if text = "" then []
    else (text.splitOn "\n").filterMap (fun p =>
      if 3 < (pyStripStr p).length then some { text := cleanText p, style := "Normal" }
      else none))

/-- C7 counterexample: a .txt document consisting of one NUL character passes
the raw-line filter (NUL is neither printable nor whitespace, so the raw line
does not strip to empty) yet cleans to the empty string, so extraction returns
a block whose text is blank. -/
theorem txt_extraction_returns_blank_block :
    extractTxt "\x00" = [{ text := "", style := "Normal" }] ∧
    ({ text := "", style := "Normal" } : Para).text = "" := by
  constructor
  · rfl
  · rfl

/-- C7 (amended): the .docx and .epub branches exclude blocks by their cleaned
text, so every block they return has non-blank text; the .txt and .pdf branches
filter on the raw line only (non-blank raw line, resp. stripped length above
three), so each of their blocks comes from such a raw line but may itself have
empty cleaned text. -/
theorem extraction_blank_filtering :
    (∀ (raws : List (String × String)) (p : Para), p ∈ extractDocx raws → p.text ≠ "") ∧
    (∀ (items : List (String × String)) (p : Para), p ∈ extractEpub items → p.text ≠ "") ∧
    (∀ (s : String) (p : Para), p ∈ extractTxt s →
      ∃ raw, raw ∈ pySplitLines s ∧ pyStripStr raw ≠ "" ∧ p.text = cleanText raw) ∧
    (∀ (pages : List String) (p : Para), p ∈ extractPdf pages →
      ∃ raw, 3 < (pyStripStr raw).length ∧ p.text = cleanText raw) := by
  refine ⟨fun raws p hp => ?_, fun items p hp => ?_, fun s p hp => ?_, fun pages p hp => ?_⟩
  · rcases List.mem_filterMap.mp hp with ⟨pr, _, hif⟩
    by_cases h : cleanText pr.1 ≠ ""
    · rw [if_pos h] at hif
      cases hif
      exact h
    · rw [if_neg h] at hif
      cases hif
  · rcases List.mem_filterMap.mp hp with ⟨it, _, hif⟩
    by_cases h : cleanText it.1 ≠ ""
    · rw [if_pos h] at hif
      cases hif
      exact h
    · rw [if_neg h] at hif
      cases hif
  · rcases List.mem_map.mp hp with ⟨raw, hraw, hmk⟩
    rcases List.mem_filter.mp hraw with ⟨hmem, hne⟩
    exact ⟨raw, hmem, by simpa using hne, by rw [← hmk]⟩
  · rcases List.mem_flatMap.mp hp with ⟨text, _, hin⟩
    by_cases ht : text = ""
    · rw [if_pos ht] at hin
      simp at hin
    · rw [if_neg ht] at hin
      rcases List.mem_filterMap.mp hin with ⟨raw, _, hif⟩
      by_cases h : 3 < (pyStripStr raw).length
      · rw [if_pos h] at hif
        cases hif
        exact ⟨raw, h, rfl⟩
      · rw [if_neg h] at hif
        cases hif

/-! ## Job record and pipeline events

The job store jobs_db of main.py maps a job id to a mutable dictionary; the
fields below are the ones the workflow reads and writes (the filename and
languages entries set at submission are carried separately where needed).  One
pipeline run is embedded as a pure function returning the ordered trace of its
observable actions together with the final job record. -/

/-- The jobs_db entry for one job: status label, progress percentage, terminal
flags and diagnostic message (main.py lines 154 to 161 and the JobStatus
model). -/
structure JobRecord where
  status : String
  progress : Nat
  complete : Bool
  error : Bool
  message : String
  deriving DecidableEq

/-- One observable action of a pipeline run, in program order: a write of the
job record to the store, a remote translation request, a written output
artifact keyed by language and format, or the deletion of the source file. -/
inductive Ev where
  | update (r : JobRecord)
  | translateCall (text lang : String)
  | exportArtifact (lang fmt : String)
  | deleteSource
  deriving DecidableEq

/-- Embedding of TranslationEngine.translate lines 93 to 144.  The guard of
lines 94 and 95 returns the empty string, issuing no request, when the text is
empty or strips to empty.  The HTTP call, response parsing and _clean_output
postprocessing of lines 97 to 144 are external and are abstracted by the remote
oracle; an Except.error models the raised RuntimeError. -/
def engineTranslate (remote : String → String → Except String String)
    (text lang : String) : Except String String × List Ev :=
  if text = "" ∨ pyStripStr text = "" then (Except.ok "", [])
  else (remote text lang, [Ev.translateCall text lang])

/-- Embedding of the per-block body of the translation loop, main.py lines 99
to 102: translate the block text and carry the style tag over unchanged (the
style default Normal is materialised in Para.style at extraction). -/
def translateBlock (remote : String → String → Except String String)
    (p : Para) (lang : String) : Except String Para × List Ev :=
  let t := engineTranslate remote p.text lang
  match t.1 with
  | Except.ok s => (Except.ok { text := s, style := p.style }, t.2)
  | Except.error e => (Except.error e, t.2)

/-- Progress value written after the block at index i of the language at index
langIdx, main.py line 104: 10 + int(((lang_idx + idx / len(paragraphs)) /
total_langs) * 80), with the float arithmetic carried out exactly, so the int()
truncation is the floor 80 * (langIdx * n + i) / (n * L) in natural division. -/
def progressAt (langIdx i n L : Nat) : Nat :=
  10 + 80 * (langIdx * n + i) / (n * L)

/-- Inner loop of main.py lines 98 to 105 over the paragraphs of one language:
each block is translated, appended, and the progress field updated; a raised
translation error aborts with the record as it stood before the failing block. -/
def blocksLoop (remote : String → String → Except String String) (lang : String)
    (langIdx n L : Nat) :
    List Para → Nat → JobRecord → List Ev × JobRecord × Except String (List Para)
  | [], _, r => ([], r, Except.ok [])
  | p :: rest, i, r =>
    let tr := translateBlock remote p lang
    match tr.1 with
    | Except.error e => (tr.2, r, Except.error e)
    | Except.ok tp =>
      let r2 := { r with progress := progressAt langIdx i n L }
      let nxt := blocksLoop remote lang langIdx n L rest (i + 1) r2
      (tr.2 ++ [Ev.update r2] ++ nxt.1, nxt.2.1, (nxt.2.2).map (fun ts => tp :: ts))

/-- Export loop of main.py lines 108 and 109 for one language: each requested
format is rendered through processor.save_by_format, modelled by the export
oracle; by the save_by_format contract a successful call leaves the artifact
keyed by language and format on storage, and a raised error aborts the job. -/
def formatsLoop (exportO : List Para → String → String → Except String Unit)
    (translated : List Para) (lang : String) :
    List String → List Ev × Except String Unit
  | [] => ([], Except.ok ())
  | fmt :: rest =>
    match exportO translated fmt lang with
    | Except.error e => ([], Except.error e)
    | Except.ok _ =>
      let nxt := formatsLoop exportO translated lang rest
      (Ev.exportArtifact lang fmt :: nxt.1, nxt.2)

/-- Model of str.title() for the language names this service accepts: every
member of SUPPORTED_LANGS is a single lowercase word, on which title() is
capitalisation of the first letter. -/
def pyTitle (s : String) : String :=
  s.capitalize

/-- Outer loop of main.py lines 94 to 109 over the requested languages: set the
Translating status, translate every paragraph, set the Exporting status, render
every format, then move to the next language.  n is the paragraph count and L
the language count fixed at entry (main.py line 92). -/
def langsLoop (remote : String → String → Except String String)
    (exportO : List Para → String → String → Except String Unit)
    (paras : List Para) (n L : Nat) (formats : List String) :
    List String → Nat → JobRecord → List Ev × JobRecord × Except String Unit
  | [], _, r => ([], r, Except.ok ())
  | lang :: rest, langIdx, r =>
    let r1 := { r with status := "Translating " ++ pyTitle lang }
    let tb := blocksLoop remote lang langIdx n L paras 0 r1
    match tb.2.2 with
    | Except.error e => (Ev.update r1 :: tb.1, tb.2.1, Except.error e)
    | Except.ok translated =>
      let r2 := { tb.2.1 with status := "Exporting " ++ pyTitle lang }
      let fl := formatsLoop exportO translated lang formats
      match fl.2 with
      | Except.error e =>
        (Ev.update r1 :: tb.1 ++ [Ev.update r2] ++ fl.1, r2, Except.error e)
      | Except.ok _ =>
        let nxt := langsLoop remote exportO paras n L formats rest (langIdx + 1) r2
        (Ev.update r1 :: tb.1 ++ [Ev.update r2] ++ fl.1 ++ nxt.1, nxt.2.1, nxt.2.2)

/-- Terminal update of the except branch, main.py lines 118 to 125: status
Failed, error and complete set, the message set to the exception text, and the
progress left at its last value. -/
def failRec (r : JobRecord) (e : String) : JobRecord :=
  { r with status := "Failed", error := true, complete := true, message := e }

/-- Embedding of run_translation_workflow, main.py lines 84 to 128.  The
extraction result (or the exception extraction raised) is the extractRes
argument; an empty paragraph list raises ValueError with the message below
(lines 89 and 90).  The finally block deletes the source file when it still
exists (lines 126 to 128); the success or failure of that removal has no path
back into the job record, so the record returned is fixed before cleanup. -/
def runWorkflow (remote : String → String → Except String String)
    (exportO : List Para → String → String → Except String Unit)
    (extractRes : Except String (List Para))
    (languages formats : List String) (sourceExists : Bool) : List Ev × JobRecord :=
  let r1 : JobRecord :=
    { status := "Extracting text", progress := 5, complete := false,
      error := false, message := "" }
  let body : List Ev × JobRecord :=
    match extractRes with
    | Except.error e =>
      ([Ev.update r1, Ev.update (failRec r1 e)], failRec r1 e)
    | Except.ok paras =>
      if paras.isEmpty then
        ([Ev.update r1, Ev.update (failRec r1 "Empty or unreadable document")],
          failRec r1 "Empty or unreadable document")
      else
        let res := langsLoop remote exportO paras paras.length languages.length
          formats languages 0 r1
        match res.2.2 with
        | Except.error e =>
          (Ev.update r1 :: res.1 ++ [Ev.update (failRec res.2.1 e)], failRec res.2.1 e)
        | Except.ok _ =>
          let rL := res.2.1
          let rC :=
            { rL with
              status := "Completed", progress := 100, complete := true,
              message := "All translations generated successfully." }
          (Ev.update r1 :: res.1 ++ [Ev.update rC], rC)
  (body.1 ++ (if sourceExists then [Ev.deleteSource] else []), body.2)

/-! ## Trace projections -/

/-- Progress values of the record writes in a trace, in order. -/
def evProgressList (evs : List Ev) : List Nat :=
  evs.filterMap (fun e =>
    match e with
    | Ev.update r => some r.progress
    | _ => none)

/-- Language and format keys of the artifacts written in a trace, in order. -/
def exportsOf (evs : List Ev) : List (String × String) :=
  evs.filterMap (fun e =>
    match e with
    | Ev.exportArtifact lang fmt => some (lang, fmt)
    | _ => none)

/-- C5: a job whose extraction yields no Text Blocks runs exactly two record
writes, the Extracting one at the progress floor 5 and the Failed one carrying
the message Empty or unreadable document at the same progress 5, followed only
by the source cleanup; in particular no Translating status is ever set and no
translation call is issued, whatever the oracles, languages and formats are. -/
theorem empty_document_fails_early
    (remote : String → String → Except String String)
    (exportO : List Para → String → String → Except String Unit)
    (languages formats : List String) (sourceExists : Bool) :
    runWorkflow remote exportO (Except.ok []) languages formats sourceExists =
      ([Ev.update ⟨"Extracting text", 5, false, false, ""⟩,
        Ev.update ⟨"Failed", 5, true, true, "Empty or unreadable document"⟩] ++
        (if sourceExists then [Ev.deleteSource] else []),
       ⟨"Failed", 5, true, true, "Empty or unreadable document"⟩) := by
  cases sourceExists <;> rfl

/-- C6: a Text Block produced by extraction carries already-cleaned text, so a
block whose cleaned text is empty is the block with empty text; translating it
issues no remote request for any target language and yields the empty-text
block with the original style tag unchanged. -/
theorem empty_block_skips_remote
    (remote : String → String → Except String String)
    (lang style raw : String) (h : cleanText raw = "") :
    translateBlock remote { text := cleanText raw, style := style } lang =
      (Except.ok { text := "", style := style }, []) := by
  rw [h]
  simp [translateBlock, engineTranslate]

/-- C6 witness: the empty raw string cleans to the empty string, and the
resulting block is passed through untranslated with its style kept even under
an oracle that would translate any text it was given. -/
theorem empty_block_skips_remote_witness :
    cleanText "" = "" ∧
    translateBlock (fun _ _ => Except.ok "hola") { text := cleanText "", style := "Heading 1" }
        "spanish" =
      (Except.ok { text := "", style := "Heading 1" }, []) :=
  ⟨rfl, empty_block_skips_remote (fun _ _ => Except.ok "hola") "spanish" "Heading 1" "" rfl⟩

/-- C1 counterexample: with two requested languages, a translation oracle that
fails only for the second language, and exports that always succeed, the job
ends Failed because of a failed translation call, yet the docx artifact of the
first language was already exported, and that export event precedes the failing
translation call in the trace; so translation failure neither precedes all
exports nor leaves the job without output artifacts. -/
theorem export_runs_before_later_translation :
    (runWorkflow
        (fun _ l => if l = "german" then Except.error "boom" else Except.ok "hola")
        (fun _ _ _ => Except.ok ())
        (Except.ok [⟨"hello", "Normal"⟩]) ["spanish", "german"] ["docx"] true).2.error
      = true ∧
    (runWorkflow
        (fun _ l => if l = "german" then Except.error "boom" else Except.ok "hola")
        (fun _ _ _ => Except.ok ())
        (Except.ok [⟨"hello", "Normal"⟩]) ["spanish", "german"] ["docx"] true).2.message
      = "boom" ∧
    Ev.exportArtifact "spanish" "docx" ∈
      (runWorkflow
        (fun _ l => if l = "german" then Except.error "boom" else Except.ok "hola")
        (fun _ _ _ => Except.ok ())
        (Except.ok [⟨"hello", "Normal"⟩]) ["spanish", "german"] ["docx"] true).1 ∧
    (runWorkflow
        (fun _ l => if l = "german" then Except.error "boom" else Except.ok "hola")
        (fun _ _ _ => Except.ok ())
        (Except.ok [⟨"hello", "Normal"⟩]) ["spanish", "german"] ["docx"] true).1.indexOf
        (Ev.exportArtifact "spanish" "docx") <
      (runWorkflow
        (fun _ l => if l = "german" then Except.error "boom" else Except.ok "hola")
        (fun _ _ _ => Except.ok ())
        (Except.ok [⟨"hello", "Normal"⟩]) ["spanish", "german"] ["docx"] true).1.indexOf
        (Ev.translateCall "hello" "german") := by
  decide

/-- Modelled from the spec: the progress formula the specification states for
the Translating stage, 10 + ((lang_index + block_index / block_count) /
total_languages) * 70 truncated to an integer, written with exact natural
division. -/
def specProgress (langIdx i n L : Nat) : Nat :=
  10 + 70 * (langIdx * n + i) / (n * L)

/-- C2 counterexample: one language and ten paragraphs; after the last block
the recorded progress is 82, while the formula of the claim gives
specProgress 0 9 10 1 = 73, and 82 also lies outside the claimed band of 10 to
80.  The full recorded progress sequence of the run is listed. -/
theorem progress_deviates_from_spec_formula :
    evProgressList (runWorkflow (fun _ _ => Except.ok "x") (fun _ _ _ => Except.ok ())
        (Except.ok (List.replicate 10 ⟨"a", "Normal"⟩)) ["spanish"] ["docx"] true).1 =
      [5, 5, 10, 18, 26, 34, 42, 50, 58, 66, 74, 82, 82, 100] ∧
    specProgress 0 9 10 1 = 73 ∧ ¬ 82 ≤ 80 := by
  decide

/-- C2 (amended): the recorded progress after the block at index i of the
language at index langIdx equals 10 plus the truncation of
((langIdx + i / blockCount) / totalLanguages) * 80 — the multiplier in the code
is 80, not 70 — and therefore every progress value recorded during translation
lies between 10 and 89. -/
theorem progress_formula_band (langIdx i n L : Nat) (hl : langIdx < L) (hi : i < n) :
    progressAt langIdx i n L =
      10 + ⌊(((langIdx : ℚ) + (i : ℚ) / (n : ℚ)) / (L : ℚ)) * 80⌋₊ ∧
    10 ≤ progressAt langIdx i n L ∧ progressAt langIdx i n L ≤ 89 := by
  have hn : 0 < n := Nat.lt_of_le_of_lt (Nat.zero_le i) hi
  have hL : 0 < L := Nat.lt_of_le_of_lt (Nat.zero_le langIdx) hl
  have hnq : ((n : ℚ)) ≠ 0 := Nat.cast_ne_zero.mpr (Nat.pos_iff_ne_zero.mp hn)
  have hLq : ((L : ℚ)) ≠ 0 := Nat.cast_ne_zero.mpr (Nat.pos_iff_ne_zero.mp hL)
  refine ⟨?_, Nat.le_add_right 10 _, ?_⟩
  · have hq : (((langIdx : ℚ) + (i : ℚ) / (n : ℚ)) / (L : ℚ)) * 80 =
        ((80 * (langIdx * n + i) : ℕ) : ℚ) / ((n * L : ℕ) : ℚ) := by
      push_cast
      field_simp
      ring
    rw [progressAt, hq, Nat.floor_div_eq_div]
  · have hlt : 80 * (langIdx * n + i) / (n * L) < 80 := by
      rw [Nat.div_lt_iff_lt_mul (Nat.mul_pos hn hL)]
      have h1 : langIdx * n + i < (langIdx + 1) * n := by
        rw [Nat.succ_mul]
        exact Nat.add_lt_add_left hi _
      have h2 : (langIdx + 1) * n ≤ L * n := Nat.mul_le_mul_right n hl
      have h3 : langIdx * n + i < n * L := by
        rw [Nat.mul_comm n L]
        exact Nat.lt_of_lt_of_le h1 h2
      omega
    have : 80 * (langIdx * n + i) / (n * L) ≤ 79 := Nat.le_of_lt_succ hlt
    unfold progressAt
    omega

/-- C2 amended witness: at language index 0, block index 1, two blocks and one
language the code records 50, which is 10 plus the truncation of
((0 + 1/2) / 1) * 80 = 40, inside the band of 10 to 89. -/
theorem progress_formula_band_witness :
    (0 : Nat) < 1 ∧ (1 : Nat) < 2 ∧
    (progressAt 0 1 2 1 =
        10 + ⌊(((0 : ℚ) + (1 : ℚ) / (2 : ℚ)) / (1 : ℚ)) * 80⌋₊ ∧
      10 ≤ progressAt 0 1 2 1 ∧ progressAt 0 1 2 1 ≤ 89) :=
  ⟨by decide, by decide, progress_formula_band 0 1 2 1 (by decide) (by decide)⟩

/-! ## Artifact download, main.py lines 172 to 203 -/

/-- One jobs_db entry as the endpoints see it: the workflow fields plus the
submission-time filename and language list of main.py lines 154 to 161. -/
structure StoredJob where
  record : JobRecord
  filename : String
  languages : List String
  deriving DecidableEq

/-- The SUPPORTED_OUTPUTS set of main.py line 60. -/
def supportedOutputs : List String := ["docx", "pdf", "epub"]

/-- Deterministic storage key of an output artifact, main.py line 188 and
DocumentProcessor.save_by_format line 141. -/
def artifactKey (jobId lang fmt : String) : String :=
  "translated_" ++ lang ++ "_" ++ jobId ++ "." ++ fmt

/-- Model of Python str.lower character by character; exact for the ASCII
language and format names this service handles. -/
def pyLower (s : String) : String :=
  (s.toList.map Char.toLower).asString

/-- Embedding of the download_translation endpoint, main.py lines 172 to 203.
The job store is the jobs function, storage is the fileOn predicate over
artifact keys; an Except.error carries the HTTP status code and detail of the
raised HTTPException, and success returns the storage key served by the
FileResponse (the decorative download filename built from the stored original
name is presentation only and is not modelled). -/
def downloadTranslation (jobs : String → Option StoredJob) (fileOn : String → Bool)
    (jobId language fileFormat : String) : Except (Nat × String) String :=
  match jobs jobId with
  | none => Except.error (404, "File not ready")
  | some job =>
    if ¬ job.record.complete then Except.error (404, "File not ready")
    else
      let fmt := pyStripStr (pyLower fileFormat)
      let lang := pyStripStr (pyLower language)
      if fmt ∉ supportedOutputs then Except.error (400, "Invalid format")
      else if ¬ fileOn (artifactKey jobId lang fmt) then Except.error (404, "File not found")
      else Except.ok (artifactKey jobId lang fmt)

/-- C3 counterexample: a job whose terminal state is Failed (complete true and
error true) with an artifact of an earlier language still on storage; the
download endpoint serves that artifact because it checks only the complete
flag, never the error flag. -/
theorem failed_job_artifact_served :
    downloadTranslation
        (fun j => if j = "job1"
          then some ⟨⟨"Failed", 45, true, true, "Featherless API request failed: boom"⟩,
            "book.txt", ["Spanish"]⟩
          else none)
        (fun k => k = "translated_spanish_job1.docx")
        "job1" "spanish" "docx" =
      Except.ok "translated_spanish_job1.docx" ∧
    (⟨"Failed", 45, true, true, "Featherless API request failed: boom"⟩ : JobRecord).error
      = true := by
  constructor
  · rfl
  · rfl

/-- C3 (amended): the download endpoint serves a stored artifact exactly when
the job exists, its complete flag is true, the normalised format is one of the
supported outputs and the artifact file exists on storage; the error flag is
not consulted, so artifacts of a Failed job that were exported before the
failure are served as well.  Any job that is absent or not complete gets a
not-ready error and no artifact. -/
theorem download_ok_iff (jobs : String → Option StoredJob) (fileOn : String → Bool)
    (jobId language fileFormat : String) :
    (downloadTranslation jobs fileOn jobId language fileFormat).isOk = true ↔
      ∃ job, jobs jobId = some job ∧ job.record.complete = true ∧
        pyStripStr (pyLower fileFormat) ∈ supportedOutputs ∧
        fileOn (artifactKey jobId (pyStripStr (pyLower language))
          (pyStripStr (pyLower fileFormat))) = true := by
  unfold downloadTranslation
  cases hj : jobs jobId with
  | none => simp [Except.isOk, Except.toBool]
  | some job =>
    by_cases hc : job.record.complete = true
    · by_cases hf : pyStripStr (pyLower fileFormat) ∈ supportedOutputs
      · by_cases hs : fileOn (artifactKey jobId (pyStripStr (pyLower language))
            (pyStripStr (pyLower fileFormat))) = true
        · simp [hc, hf, hs, Except.isOk, Except.toBool]
        · simp [hc, hf, hs, Except.isOk, Except.toBool]
      · simp [hc, hf, Except.isOk, Except.toBool]
    · simp [hc, Except.isOk, Except.toBool]

/-! ## Progress monotonicity -/

/-- Chain predicate: starting from value a, the listed values are non-decreasing
and end no higher than b. -/
def MonoFrom (a : Nat) : List Nat → Nat → Prop
  | [], b => a ≤ b
  | x :: xs, b => a ≤ x ∧ MonoFrom x xs b

theorem monoFrom_le {a b : Nat} : ∀ {l : List Nat}, MonoFrom a l b → a ≤ b := by
  intro l
  induction l generalizing a with
  | nil => exact fun h => h
  | cons x xs ih => exact fun h => Nat.le_trans h.1 (ih h.2)

theorem monoFrom_weaken {a b c : Nat} (hbc : b ≤ c) :
    ∀ {l : List Nat}, MonoFrom a l b → MonoFrom a l c := by
  intro l
  induction l generalizing a with
  | nil => exact fun h => Nat.le_trans h hbc
  | cons x xs ih => exact fun h => ⟨h.1, ih h.2⟩

theorem monoFrom_start {a b c : Nat} (hab : a ≤ b) :
    ∀ {l : List Nat}, MonoFrom b l c → MonoFrom a l c := by
  intro l
  cases l with
  | nil => exact fun h => Nat.le_trans hab h
  | cons x xs => exact fun h => ⟨Nat.le_trans hab h.1, h.2⟩

theorem monoFrom_append {a b c : Nat} :
    ∀ {l₁ l₂ : List Nat}, MonoFrom a l₁ b → MonoFrom b l₂ c →
      MonoFrom a (l₁ ++ l₂) c := by
  intro l₁
  induction l₁ generalizing a with
  | nil =>
    intro l₂ h₁ h₂
    simpa using monoFrom_start h₁ h₂
  | cons x xs ih => exact fun h₁ h₂ => ⟨h₁.1, ih h₁.2 h₂⟩

theorem monoFrom_snoc {a b : Nat} {l : List Nat} (h : MonoFrom a l b) :
    MonoFrom a (l ++ [b]) b :=
  monoFrom_append h ⟨Nat.le_refl b, Nat.le_refl b⟩

theorem monoFrom_mem_le {a b : Nat} :
    ∀ {l : List Nat}, MonoFrom a l b → ∀ x ∈ l, x ≤ b := by
  intro l
  induction l generalizing a with
  | nil => intro _ x hx; cases hx
  | cons y ys ih =>
    intro h x hx
    cases hx with
    | head => exact monoFrom_le h.2
    | tail _ hx => exact ih h.2 x hx

theorem monoFrom_chain {a b : Nat} :
    ∀ {l : List Nat}, MonoFrom a l b → List.Chain' (· ≤ ·) (a :: l) := by
  intro l
  induction l generalizing a with
  | nil => intro _; simp
  | cons x xs ih =>
    intro h
    exact List.chain'_cons.mpr ⟨h.1, ih h.2⟩

theorem evProgressList_append (l₁ l₂ : List Ev) :
    evProgressList (l₁ ++ l₂) = evProgressList l₁ ++ evProgressList l₂ := by
  unfold evProgressList
  exact List.filterMap_append l₁ l₂ _

theorem evProgressList_engine (remote : String → String → Except String String)
    (text lang : String) :
    evProgressList (engineTranslate remote text lang).2 = [] := by
  unfold engineTranslate
  split <;> rfl

theorem evProgressList_translateBlock (remote : String → String → Except String String)
    (p : Para) (lang : String) :
    evProgressList (translateBlock remote p lang).2 = [] := by
  unfold translateBlock
  dsimp only
  cases h : (engineTranslate remote p.text lang).1 <;>
    simp [h, evProgressList_engine remote p.text lang]

theorem evProgressList_formatsLoop
    (exportO : List Para → String → String → Except String Unit)
    (translated : List Para) (lang : String) :
    ∀ fs : List String, evProgressList (formatsLoop exportO translated lang fs).1 = [] := by
  intro fs
  induction fs with
  | nil => rfl
  | cons fmt rest ih =>
    unfold formatsLoop
    cases h : exportO translated fmt lang with
    | error e => rfl
    | ok u => simpa [evProgressList] using ih

theorem monoFrom_nil {a b : Nat} : MonoFrom a [] b ↔ a ≤ b := Iff.rfl

theorem monoFrom_cons {a x b : Nat} {xs : List Nat} :
    MonoFrom a (x :: xs) b ↔ a ≤ x ∧ MonoFrom x xs b := Iff.rfl

theorem progressAt_mono {l i l' i' n L : Nat} (h : l * n + i ≤ l' * n + i') :
    progressAt l i n L ≤ progressAt l' i' n L :=
  Nat.add_le_add_left (Nat.div_le_div_right (Nat.mul_le_mul_left 80 h)) 10

theorem progressAt_zero (n L : Nat) : progressAt 0 0 n L = 10 := by
  simp [progressAt]

theorem progressAt_step (l n L : Nat) : progressAt l n n L = progressAt (l + 1) 0 n L := by
  unfold progressAt
  have h : l * n + n = (l + 1) * n + 0 := by ring
  rw [h]

theorem progressAt_top_le (n L : Nat) : progressAt L 0 n L ≤ 90 := by
  unfold progressAt
  have h : 80 * (L * n + 0) / (n * L) ≤ 80 := by
    rcases Nat.eq_zero_or_pos (n * L) with h0 | hpos
    · rw [h0]
      simp
    · rw [Nat.add_zero, Nat.mul_comm L n, Nat.mul_div_cancel 80 hpos]
  omega

theorem blocksLoop_mono (remote : String → String → Except String String)
    (lang : String) (langIdx n L : Nat) :
    ∀ (ps : List Para) (i : Nat) (r : JobRecord),
      i + ps.length = n →
      r.progress ≤ progressAt langIdx i n L →
      MonoFrom r.progress
          (evProgressList (blocksLoop remote lang langIdx n L ps i r).1)
          (blocksLoop remote lang langIdx n L ps i r).2.1.progress ∧
        (blocksLoop remote lang langIdx n L ps i r).2.1.progress ≤
          progressAt langIdx n n L := by
  intro ps
  induction ps with
  | nil =>
    intro i r hi hr
    have hi2 : i = n := by simpa using hi
    subst hi2
    refine ⟨?_, hr⟩
    have h0 : blocksLoop remote lang langIdx i L [] i r = ([], r, Except.ok []) := rfl
    rw [h0]
    simp [evProgressList, monoFrom_nil]
  | cons p rest ih =>
    intro i r hi hr
    have hilt : i < n := by simp at hi; omega
    cases htr : (translateBlock remote p lang).1 with
    | error e =>
      have heq : blocksLoop remote lang langIdx n L (p :: rest) i r
          = ((translateBlock remote p lang).2, r, Except.error e) := by
        simp only [blocksLoop, htr]
      rw [heq]
      refine ⟨?_, Nat.le_trans hr (progressAt_mono (by omega))⟩
      rw [evProgressList_translateBlock]
      simp [monoFrom_nil]
    | ok tp =>
      have hi2 : (i + 1) + rest.length = n := by simp at hi ⊢; omega
      have hr2 : ({ r with progress := progressAt langIdx i n L } : JobRecord).progress
          ≤ progressAt langIdx (i + 1) n L := progressAt_mono (by omega)
      have bm := ih (i + 1) { r with progress := progressAt langIdx i n L } hi2 hr2
      have heq : blocksLoop remote lang langIdx n L (p :: rest) i r
          = ((translateBlock remote p lang).2 ++
              [Ev.update { r with progress := progressAt langIdx i n L }] ++
              (blocksLoop remote lang langIdx n L rest (i + 1)
                { r with progress := progressAt langIdx i n L }).1,
             (blocksLoop remote lang langIdx n L rest (i + 1)
                { r with progress := progressAt langIdx i n L }).2.1,
             ((blocksLoop remote lang langIdx n L rest (i + 1)
                { r with progress := progressAt langIdx i n L }).2.2).map
               (fun ts => tp :: ts)) := by
        simp only [blocksLoop, htr]
      rw [heq]
      refine ⟨?_, bm.2⟩
      rw [evProgressList_append, evProgressList_append, evProgressList_translateBlock]
      have hu : evProgressList [Ev.update { r with progress := progressAt langIdx i n L }]
          = [progressAt langIdx i n L] := rfl
      rw [hu, List.nil_append, List.singleton_append, monoFrom_cons]
      exact ⟨hr, bm.1⟩

theorem evProgressList_cons_update (r : JobRecord) (l : List Ev) :
    evProgressList (Ev.update r :: l) = r.progress :: evProgressList l := rfl

theorem langsLoop_mono (remote : String → String → Except String String)
    (exportO : List Para → String → String → Except String Unit)
    (paras : List Para) (n L : Nat) (formats : List String)
    (hn : paras.length = n) :
    ∀ (langs : List String) (langIdx : Nat) (r : JobRecord),
      langIdx + langs.length = L →
      r.progress ≤ progressAt langIdx 0 n L →
      MonoFrom r.progress
          (evProgressList
            (langsLoop remote exportO paras n L formats langs langIdx r).1)
          (langsLoop remote exportO paras n L formats langs langIdx r).2.1.progress ∧
        (langsLoop remote exportO paras n L formats langs langIdx r).2.1.progress ≤
          progressAt L 0 n L := by
  intro langs
  induction langs with
  | nil =>
    intro langIdx r hL hr
    have hL2 : langIdx = L := by simpa using hL
    subst hL2
    refine ⟨?_, hr⟩
    have h0 : langsLoop remote exportO paras n langIdx formats [] langIdx r
        = ([], r, Except.ok ()) := rfl
    rw [h0]
    simp [evProgressList, monoFrom_nil]
  | cons lang rest ih =>
    intro langIdx r hL hr
    have hl : langIdx < L := by simp at hL; omega
    have hstep : (langIdx + 1) * n + 0 ≤ L * n + 0 := by
      have := Nat.mul_le_mul_right n (show langIdx + 1 ≤ L by omega)
      omega
    have bm := blocksLoop_mono remote lang langIdx n L paras 0
      { r with status := "Translating " ++ pyTitle lang } (by simpa using hn) hr
    cases h2 : (blocksLoop remote lang langIdx n L paras 0
        { r with status := "Translating " ++ pyTitle lang }).2.2 with
    | error e =>
      have heq : langsLoop remote exportO paras n L formats (lang :: rest) langIdx r
          = (Ev.update { r with status := "Translating " ++ pyTitle lang } ::
              (blocksLoop remote lang langIdx n L paras 0
                { r with status := "Translating " ++ pyTitle lang }).1,
             (blocksLoop remote lang langIdx n L paras 0
               { r with status := "Translating " ++ pyTitle lang }).2.1,
             Except.error e) := by
        simp only [langsLoop, h2]
      rw [heq]
      refine ⟨?_, ?_⟩
      · rw [evProgressList_cons_update, monoFrom_cons]
        exact ⟨Nat.le_refl _, bm.1⟩
      · refine Nat.le_trans bm.2 ?_
        rw [progressAt_step]
        exact progressAt_mono hstep
    | ok translated =>
      cases h3 : (formatsLoop exportO translated lang formats).2 with
      | error e =>
        have heq : langsLoop remote exportO paras n L formats (lang :: rest) langIdx r
            = (((Ev.update { r with status := "Translating " ++ pyTitle lang } ::
                (blocksLoop remote lang langIdx n L paras 0
                  { r with status := "Translating " ++ pyTitle lang }).1) ++
                [Ev.update { (blocksLoop remote lang langIdx n L paras 0
                    { r with status := "Translating " ++ pyTitle lang }).2.1 with
                    status := "Exporting " ++ pyTitle lang }]) ++
                (formatsLoop exportO translated lang formats).1,
               { (blocksLoop remote lang langIdx n L paras 0
                   { r with status := "Translating " ++ pyTitle lang }).2.1 with
                 status := "Exporting " ++ pyTitle lang },
               Except.error e) := by
          simp only [langsLoop, h2, h3]
        rw [heq]
        refine ⟨?_, ?_⟩
        · rw [evProgressList_append, evProgressList_append,
            evProgressList_formatsLoop, List.append_nil,
            evProgressList_cons_update]
          have hsingle : evProgressList
              [Ev.update { (blocksLoop remote lang langIdx n L paras 0
                  { r with status := "Translating " ++ pyTitle lang }).2.1 with
                  status := "Exporting " ++ pyTitle lang }]
              = [(blocksLoop remote lang langIdx n L paras 0
                  { r with status := "Translating " ++ pyTitle lang }).2.1.progress] := rfl
          rw [hsingle, List.cons_append, monoFrom_cons]
          exact ⟨Nat.le_refl _, monoFrom_snoc bm.1⟩
        · refine Nat.le_trans bm.2 ?_
          rw [progressAt_step]
          exact progressAt_mono hstep
      | ok u =>
        have hr2 : ({ (blocksLoop remote lang langIdx n L paras 0
              { r with status := "Translating " ++ pyTitle lang }).2.1 with
              status := "Exporting " ++ pyTitle lang } : JobRecord).progress
            ≤ progressAt (langIdx + 1) 0 n L := by
          rw [← progressAt_step]
          exact bm.2
        have hL2 : (langIdx + 1) + rest.length = L := by simp at hL ⊢; omega
        have IH := ih (langIdx + 1)
          { (blocksLoop remote lang langIdx n L paras 0
              { r with status := "Translating " ++ pyTitle lang }).2.1 with
            status := "Exporting " ++ pyTitle lang } hL2 hr2
        have heq : langsLoop remote exportO paras n L formats (lang :: rest) langIdx r
            = ((((Ev.update { r with status := "Translating " ++ pyTitle lang } ::
                (blocksLoop remote lang langIdx n L paras 0
                  { r with status := "Translating " ++ pyTitle lang }).1) ++
                [Ev.update { (blocksLoop remote lang langIdx n L paras 0
                    { r with status := "Translating " ++ pyTitle lang }).2.1 with
                    status := "Exporting " ++ pyTitle lang }]) ++
                (formatsLoop exportO translated lang formats).1) ++
                (langsLoop remote exportO paras n L formats rest (langIdx + 1)
                  { (blocksLoop remote lang langIdx n L paras 0
                      { r with status := "Translating " ++ pyTitle lang }).2.1 with
                    status := "Exporting " ++ pyTitle lang }).1,
               (langsLoop remote exportO paras n L formats rest (langIdx + 1)
                 { (blocksLoop remote lang langIdx n L paras 0
                     { r with status := "Translating " ++ pyTitle lang }).2.1 with
                   status := "Exporting " ++ pyTitle lang }).2.1,
               (langsLoop remote exportO paras n L formats rest (langIdx + 1)
                 { (blocksLoop remote lang langIdx n L paras 0
                     { r with status := "Translating " ++ pyTitle lang }).2.1 with
                   status := "Exporting " ++ pyTitle lang }).2.2) := by
          simp only [langsLoop, h2, h3]
        rw [heq]
        refine ⟨?_, IH.2⟩
        rw [evProgressList_append, evProgressList_append, evProgressList_append,
          evProgressList_formatsLoop, List.append_nil, evProgressList_cons_update]
        have hsingle : evProgressList
            [Ev.update { (blocksLoop remote lang langIdx n L paras 0
                { r with status := "Translating " ++ pyTitle lang }).2.1 with
                status := "Exporting " ++ pyTitle lang }]
            = [(blocksLoop remote lang langIdx n L paras 0
                { r with status := "Translating " ++ pyTitle lang }).2.1.progress] := rfl
        rw [hsingle, List.cons_append, List.cons_append, monoFrom_cons]
        exact ⟨Nat.le_refl _, monoFrom_append (monoFrom_snoc bm.1) IH.1⟩

theorem evProgressList_cleanup (l : List Ev) (b : Bool) :
    evProgressList (l ++ (if b then [Ev.deleteSource] else [])) = evProgressList l := by
  cases b <;> simp [evProgressList_append, evProgressList]

theorem failRec_progress (r : JobRecord) (e : String) :
    (failRec r e).progress = r.progress := rfl

/-- C4: over the whole sequence of job-record writes of one run, starting from
the record created in the Queued state at progress 0, the progress values are
non-decreasing and stay in the range 0 to 100, for every choice of oracles,
extraction result, languages, formats and source-file state. -/
theorem progress_monotone_bounded
    (remote : String → String → Except String String)
    (exportO : List Para → String → String → Except String Unit)
    (extractRes : Except String (List Para))
    (languages formats : List String) (sourceExists : Bool) :
    List.Chain' (fun a b => a ≤ b)
        (0 :: evProgressList
          (runWorkflow remote exportO extractRes languages formats sourceExists).1) ∧
      ∀ p ∈ 0 :: evProgressList
          (runWorkflow remote exportO extractRes languages formats sourceExists).1,
        p ≤ 100 := by
  cases extractRes with
  | error e =>
    have heq : (runWorkflow remote exportO (Except.error e) languages formats
        sourceExists).1 =
        [Ev.update ⟨"Extracting text", 5, false, false, ""⟩,
         Ev.update ⟨"Failed", 5, true, true, e⟩] ++
          (if sourceExists then [Ev.deleteSource] else []) := rfl
    rw [heq, evProgressList_cleanup]
    constructor
    · simp [evProgressList]
    · intro p hp
      simp [evProgressList] at hp
      omega
  | ok paras =>
    cases paras with
    | nil =>
      have heq : (runWorkflow remote exportO (Except.ok []) languages formats
          sourceExists).1 =
          [Ev.update ⟨"Extracting text", 5, false, false, ""⟩,
           Ev.update ⟨"Failed", 5, true, true, "Empty or unreadable document"⟩] ++
            (if sourceExists then [Ev.deleteSource] else []) := rfl
      rw [heq, evProgressList_cleanup]
      constructor
      · simp [evProgressList]
      · intro p hp
        simp [evProgressList] at hp
        omega
    | cons q qs =>
      have hr5 : ((⟨"Extracting text", 5, false, false, ""⟩ : JobRecord) : JobRecord).progress ≤
          progressAt 0 0 (q :: qs).length languages.length := by
        rw [progressAt_zero]
        decide
      have lm := langsLoop_mono remote exportO (q :: qs) (q :: qs).length
        languages.length formats rfl languages 0
        (⟨"Extracting text", 5, false, false, ""⟩ : JobRecord) (by simp) hr5
      have h90 := progressAt_top_le (q :: qs).length languages.length
      cases h4 : (langsLoop remote exportO (q :: qs) (q :: qs).length
          languages.length formats languages 0
          (⟨"Extracting text", 5, false, false, ""⟩ : JobRecord)).2.2 with
      | error e =>
        have heq : (runWorkflow remote exportO (Except.ok (q :: qs)) languages
            formats sourceExists).1 =
            ((Ev.update (⟨"Extracting text", 5, false, false, ""⟩ : JobRecord) ::
              (langsLoop remote exportO (q :: qs) (q :: qs).length
                languages.length formats languages 0
                (⟨"Extracting text", 5, false, false, ""⟩ : JobRecord)).1) ++
              [Ev.update (failRec (langsLoop remote exportO (q :: qs)
                (q :: qs).length languages.length formats languages 0
                (⟨"Extracting text", 5, false, false, ""⟩ : JobRecord)).2.1 e)]) ++
              (if sourceExists then [Ev.deleteSource] else []) := by
          simp only [runWorkflow, h4]
          rfl
        rw [heq, evProgressList_cleanup, evProgressList_append,
          evProgressList_cons_update]
        have hsingle : evProgressList
            [Ev.update (failRec (langsLoop remote exportO (q :: qs)
              (q :: qs).length languages.length formats languages 0
              (⟨"Extracting text", 5, false, false, ""⟩ : JobRecord)).2.1 e)]
            = [(langsLoop remote exportO (q :: qs) (q :: qs).length
                languages.length formats languages 0
                (⟨"Extracting text", 5, false, false, ""⟩ : JobRecord)).2.1.progress] := rfl
        rw [hsingle, List.cons_append]
        have hmono : MonoFrom 0 (5 :: ((evProgressList (langsLoop remote exportO
            (q :: qs) (q :: qs).length languages.length formats languages 0
            (⟨"Extracting text", 5, false, false, ""⟩ : JobRecord)).1) ++
            [(langsLoop remote exportO (q :: qs) (q :: qs).length
              languages.length formats languages 0
              (⟨"Extracting text", 5, false, false, ""⟩ : JobRecord)).2.1.progress]))
            (langsLoop remote exportO (q :: qs) (q :: qs).length
              languages.length formats languages 0
              (⟨"Extracting text", 5, false, false, ""⟩ : JobRecord)).2.1.progress := by
          rw [monoFrom_cons]
          exact ⟨by omega, monoFrom_snoc lm.1⟩
        constructor
        · exact monoFrom_chain hmono
        · intro p hp
          rcases List.mem_cons.mp hp with h0 | hmem
          · omega
          · have := monoFrom_mem_le hmono p hmem
            have := lm.2
            omega
      | ok u =>
        have heq : (runWorkflow remote exportO (Except.ok (q :: qs)) languages
            formats sourceExists).1 =
            ((Ev.update (⟨"Extracting text", 5, false, false, ""⟩ : JobRecord) ::
              (langsLoop remote exportO (q :: qs) (q :: qs).length
                languages.length formats languages 0
                (⟨"Extracting text", 5, false, false, ""⟩ : JobRecord)).1) ++
              [Ev.update { (langsLoop remote exportO (q :: qs)
                  (q :: qs).length languages.length formats languages 0
                  (⟨"Extracting text", 5, false, false, ""⟩ : JobRecord)).2.1 with
                  status := "Completed", progress := 100, complete := true,
                  message := "All translations generated successfully." }]) ++
              (if sourceExists then [Ev.deleteSource] else []) := by
          simp only [runWorkflow, h4]
          rfl
        rw [heq, evProgressList_cleanup, evProgressList_append,
          evProgressList_cons_update]
        have hsingle : evProgressList
            [Ev.update { (langsLoop remote exportO (q :: qs)
                (q :: qs).length languages.length formats languages 0
                (⟨"Extracting text", 5, false, false, ""⟩ : JobRecord)).2.1 with
                status := "Completed", progress := 100, complete := true,
                message := "All translations generated successfully." }]
            = [100] := rfl
        rw [hsingle, List.cons_append]
        have hmono : MonoFrom 0 (5 :: ((evProgressList (langsLoop remote exportO
            (q :: qs) (q :: qs).length languages.length formats languages 0
            (⟨"Extracting text", 5, false, false, ""⟩ : JobRecord)).1) ++ [100])) 100 := by
          rw [monoFrom_cons]
          refine ⟨by omega, monoFrom_snoc ?_⟩
          exact monoFrom_weaken (by omega) lm.1
        constructor
        · exact monoFrom_chain hmono
        · intro p hp
          rcases List.mem_cons.mp hp with h0 | hmem
          · omega
          · have := monoFrom_mem_le hmono p hmem
            omega

/-! ## Source cleanup -/

theorem noDelete_engine (remote : String → String → Except String String)
    (text lang : String) :
    Ev.deleteSource ∉ (engineTranslate remote text lang).2 := by
  unfold engineTranslate
  split <;> simp

theorem noDelete_translateBlock (remote : String → String → Except String String)
    (p : Para) (lang : String) :
    Ev.deleteSource ∉ (translateBlock remote p lang).2 := by
  unfold translateBlock
  dsimp only
  cases h : (engineTranslate remote p.text lang).1 <;>
    simpa [h] using noDelete_engine remote p.text lang

theorem noDelete_blocksLoop (remote : String → String → Except String String)
    (lang : String) (langIdx n L : Nat) :
    ∀ (ps : List Para) (i : Nat) (r : JobRecord),
      Ev.deleteSource ∉ (blocksLoop remote lang langIdx n L ps i r).1 := by
  intro ps
  induction ps with
  | nil => intro i r h; cases h
  | cons p rest ih =>
    intro i r
    cases htr : (translateBlock remote p lang).1 with
    | error e =>
      have heq : blocksLoop remote lang langIdx n L (p :: rest) i r
          = ((translateBlock remote p lang).2, r, Except.error e) := by
        simp only [blocksLoop, htr]
      rw [heq]
      exact noDelete_translateBlock remote p lang
    | ok tp =>
      have heq : blocksLoop remote lang langIdx n L (p :: rest) i r
          = ((translateBlock remote p lang).2 ++
              [Ev.update { r with progress := progressAt langIdx i n L }] ++
              (blocksLoop remote lang langIdx n L rest (i + 1)
                { r with progress := progressAt langIdx i n L }).1,
             (blocksLoop remote lang langIdx n L rest (i + 1)
                { r with progress := progressAt langIdx i n L }).2.1,
             ((blocksLoop remote lang langIdx n L rest (i + 1)
                { r with progress := progressAt langIdx i n L }).2.2).map
               (fun ts => tp :: ts)) := by
        simp only [blocksLoop, htr]
      rw [heq]
      intro hmem
      simp only [List.mem_append, List.mem_singleton] at hmem
      rcases hmem with (hmem | hmem) | hmem
      · exact noDelete_translateBlock remote p lang hmem
      · cases hmem
      · exact ih (i + 1) { r with progress := progressAt langIdx i n L } hmem

theorem noDelete_formatsLoop
    (exportO : List Para → String → String → Except String Unit)
    (translated : List Para) (lang : String) :
    ∀ fs : List String, Ev.deleteSource ∉ (formatsLoop exportO translated lang fs).1 := by
  intro fs
  induction fs with
  | nil => intro h; cases h
  | cons fmt rest ih =>
    unfold formatsLoop
    cases h : exportO translated fmt lang with
    | error e => intro hmem; cases hmem
    | ok u =>
      intro hmem
      rcases List.mem_cons.mp hmem with hmem | hmem
      · exact Ev.noConfusion hmem
      · exact ih hmem

theorem noDelete_langsLoop (remote : String → String → Except String String)
    (exportO : List Para → String → String → Except String Unit)
    (paras : List Para) (n L : Nat) (formats : List String) :
    ∀ (langs : List String) (langIdx : Nat) (r : JobRecord),
      Ev.deleteSource ∉ (langsLoop remote exportO paras n L formats langs langIdx r).1 := by
  intro langs
  induction langs with
  | nil => intro langIdx r h; cases h
  | cons lang rest ih =>
    intro langIdx r
    cases h2 : (blocksLoop remote lang langIdx n L paras 0
        { r with status := "Translating " ++ pyTitle lang }).2.2 with
    | error e =>
      have heq : langsLoop remote exportO paras n L formats (lang :: rest) langIdx r
          = (Ev.update { r with status := "Translating " ++ pyTitle lang } ::
              (blocksLoop remote lang langIdx n L paras 0
                { r with status := "Translating " ++ pyTitle lang }).1,
             (blocksLoop remote lang langIdx n L paras 0
               { r with status := "Translating " ++ pyTitle lang }).2.1,
             Except.error e) := by
        simp only [langsLoop, h2]
      rw [heq]
      intro hmem
      rcases List.mem_cons.mp hmem with hmem | hmem
      · exact Ev.noConfusion hmem
      · exact noDelete_blocksLoop remote lang langIdx n L paras 0 _ hmem
    | ok translated =>
      cases h3 : (formatsLoop exportO translated lang formats).2 with
      | error e =>
        have heq : langsLoop remote exportO paras n L formats (lang :: rest) langIdx r
            = (((Ev.update { r with status := "Translating " ++ pyTitle lang } ::
                (blocksLoop remote lang langIdx n L paras 0
                  { r with status := "Translating " ++ pyTitle lang }).1) ++
                [Ev.update { (blocksLoop remote lang langIdx n L paras 0
                    { r with status := "Translating " ++ pyTitle lang }).2.1 with
                    status := "Exporting " ++ pyTitle lang }]) ++
                (formatsLoop exportO translated lang formats).1,
               { (blocksLoop remote lang langIdx n L paras 0
                   { r with status := "Translating " ++ pyTitle lang }).2.1 with
                 status := "Exporting " ++ pyTitle lang },
               Except.error e) := by
          simp only [langsLoop, h2, h3]
        rw [heq]
        intro hmem
        rcases List.mem_append.mp hmem with h | h
        · rcases List.mem_append.mp h with h | h
          · rcases List.mem_cons.mp h with h | h
            · exact Ev.noConfusion h
            · exact noDelete_blocksLoop remote lang langIdx n L paras 0 _ h
          · exact Ev.noConfusion (List.mem_singleton.mp h)
        · exact noDelete_formatsLoop exportO translated lang formats h
      | ok u =>
        have heq : langsLoop remote exportO paras n L formats (lang :: rest) langIdx r
            = ((((Ev.update { r with status := "Translating " ++ pyTitle lang } ::
                (blocksLoop remote lang langIdx n L paras 0
                  { r with status := "Translating " ++ pyTitle lang }).1) ++
                [Ev.update { (blocksLoop remote lang langIdx n L paras 0
                    { r with status := "Translating " ++ pyTitle lang }).2.1 with
                    status := "Exporting " ++ pyTitle lang }]) ++
                (formatsLoop exportO translated lang formats).1) ++
                (langsLoop remote exportO paras n L formats rest (langIdx + 1)
                  { (blocksLoop remote lang langIdx n L paras 0
                      { r with status := "Translating " ++ pyTitle lang }).2.1 with
                    status := "Exporting " ++ pyTitle lang }).1,
               (langsLoop remote exportO paras n L formats rest (langIdx + 1)
                 { (blocksLoop remote lang langIdx n L paras 0
                     { r with status := "Translating " ++ pyTitle lang }).2.1 with
                   status := "Exporting " ++ pyTitle lang }).2.1,
               (langsLoop remote exportO paras n L formats rest (langIdx + 1)
                 { (blocksLoop remote lang langIdx n L paras 0
                     { r with status := "Translating " ++ pyTitle lang }).2.1 with
                   status := "Exporting " ++ pyTitle lang }).2.2) := by
          simp only [langsLoop, h2, h3]
        rw [heq]
        intro hmem
        rcases List.mem_append.mp hmem with h | h
        · rcases List.mem_append.mp h with h | h
          · rcases List.mem_append.mp h with h | h
            · rcases List.mem_cons.mp h with h | h
              · exact Ev.noConfusion h
              · exact noDelete_blocksLoop remote lang langIdx n L paras 0 _ h
            · exact Ev.noConfusion (List.mem_singleton.mp h)
          · exact noDelete_formatsLoop exportO translated lang formats h
        · exact ih (langIdx + 1) _ h

/-- C8: when the source file exists at cleanup time, every run, whatever its
terminal state, produces a trace that ends with the write of the terminal
record (whose complete flag is true) followed by exactly one source deletion;
no deletion happens anywhere else, and no record write follows the deletion, so
the job record the run returns is fixed before cleanup and a cleanup failure
(whose exception propagates without touching the job store) cannot change the
recorded status, progress, complete, error or message values. -/
theorem source_cleanup_after_terminal
    (remote : String → String → Except String String)
    (exportO : List Para → String → String → Except String Unit)
    (extractRes : Except String (List Para)) (languages formats : List String) :
    ∃ evs₀ fin,
      runWorkflow remote exportO extractRes languages formats true =
        (evs₀ ++ [Ev.update fin, Ev.deleteSource], fin) ∧
      Ev.deleteSource ∉ evs₀ ∧
      List.count Ev.deleteSource (evs₀ ++ [Ev.update fin, Ev.deleteSource]) = 1 ∧
      fin.complete = true := by
  have hcount : ∀ (evs₀ : List Ev) (fin : JobRecord), Ev.deleteSource ∉ evs₀ →
      List.count Ev.deleteSource (evs₀ ++ [Ev.update fin, Ev.deleteSource]) = 1 := by
    intro evs₀ fin hnot
    rw [List.count_append, List.count_eq_zero.mpr hnot]
    rfl
  cases extractRes with
  | error e =>
    refine ⟨[Ev.update ⟨"Extracting text", 5, false, false, ""⟩],
      ⟨"Failed", 5, true, true, e⟩, rfl, ?_, ?_, rfl⟩
    · intro h
      rcases List.mem_singleton.mp h with h
      exact Ev.noConfusion h
    · exact hcount _ _ (by intro h; exact Ev.noConfusion (List.mem_singleton.mp h))
  | ok paras =>
    cases paras with
    | nil =>
      refine ⟨[Ev.update ⟨"Extracting text", 5, false, false, ""⟩],
        ⟨"Failed", 5, true, true, "Empty or unreadable document"⟩, rfl, ?_, ?_, rfl⟩
      · intro h
        exact Ev.noConfusion (List.mem_singleton.mp h)
      · exact hcount _ _ (by intro h; exact Ev.noConfusion (List.mem_singleton.mp h))
    | cons q qs =>
      have hnot : Ev.deleteSource ∉
          Ev.update (⟨"Extracting text", 5, false, false, ""⟩ : JobRecord) ::
            (langsLoop remote exportO (q :: qs) (q :: qs).length languages.length
              formats languages 0
              (⟨"Extracting text", 5, false, false, ""⟩ : JobRecord)).1 := by
        intro h
        rcases List.mem_cons.mp h with h | h
        · exact Ev.noConfusion h
        · exact noDelete_langsLoop remote exportO (q :: qs) (q :: qs).length
            languages.length formats languages 0 _ h
      cases h4 : (langsLoop remote exportO (q :: qs) (q :: qs).length
          languages.length formats languages 0
          (⟨"Extracting text", 5, false, false, ""⟩ : JobRecord)).2.2 with
      | error e =>
        refine ⟨Ev.update (⟨"Extracting text", 5, false, false, ""⟩ : JobRecord) ::
            (langsLoop remote exportO (q :: qs) (q :: qs).length languages.length
              formats languages 0
              (⟨"Extracting text", 5, false, false, ""⟩ : JobRecord)).1,
          failRec (langsLoop remote exportO (q :: qs) (q :: qs).length
            languages.length formats languages 0
            (⟨"Extracting text", 5, false, false, ""⟩ : JobRecord)).2.1 e,
          ?_, hnot, hcount _ _ hnot, rfl⟩
        have heq : runWorkflow remote exportO (Except.ok (q :: qs)) languages
            formats true =
            (((Ev.update (⟨"Extracting text", 5, false, false, ""⟩ : JobRecord) ::
              (langsLoop remote exportO (q :: qs) (q :: qs).length
                languages.length formats languages 0
                (⟨"Extracting text", 5, false, false, ""⟩ : JobRecord)).1) ++
              [Ev.update (failRec (langsLoop remote exportO (q :: qs)
                (q :: qs).length languages.length formats languages 0
                (⟨"Extracting text", 5, false, false, ""⟩ : JobRecord)).2.1 e)]) ++
              [Ev.deleteSource],
             failRec (langsLoop remote exportO (q :: qs) (q :: qs).length
               languages.length formats languages 0
               (⟨"Extracting text", 5, false, false, ""⟩ : JobRecord)).2.1 e) := by
          simp only [runWorkflow, h4]
          rfl
        rw [heq, List.append_assoc]
        rfl
      | ok u =>
        refine ⟨Ev.update (⟨"Extracting text", 5, false, false, ""⟩ : JobRecord) ::
            (langsLoop remote exportO (q :: qs) (q :: qs).length languages.length
              formats languages 0
              (⟨"Extracting text", 5, false, false, ""⟩ : JobRecord)).1,
          { (langsLoop remote exportO (q :: qs) (q :: qs).length languages.length
              formats languages 0
              (⟨"Extracting text", 5, false, false, ""⟩ : JobRecord)).2.1 with
            status := "Completed", progress := 100, complete := true,
            message := "All translations generated successfully." },
          ?_, hnot, hcount _ _ hnot, rfl⟩
        have heq : runWorkflow remote exportO (Except.ok (q :: qs)) languages
            formats true =
            (((Ev.update (⟨"Extracting text", 5, false, false, ""⟩ : JobRecord) ::
              (langsLoop remote exportO (q :: qs) (q :: qs).length
                languages.length formats languages 0
                (⟨"Extracting text", 5, false, false, ""⟩ : JobRecord)).1) ++
              [Ev.update { (langsLoop remote exportO (q :: qs) (q :: qs).length
                  languages.length formats languages 0
                  (⟨"Extracting text", 5, false, false, ""⟩ : JobRecord)).2.1 with
                  status := "Completed", progress := 100, complete := true,
                  message := "All translations generated successfully." }]) ++
              [Ev.deleteSource],
             { (langsLoop remote exportO (q :: qs) (q :: qs).length
                 languages.length formats languages 0
                 (⟨"Extracting text", 5, false, false, ""⟩ : JobRecord)).2.1 with
               status := "Completed", progress := 100, complete := true,
               message := "All translations generated successfully." }) := by
          simp only [runWorkflow, h4]
          rfl
        rw [heq, List.append_assoc]
        rfl

/-! ## Per-language sequencing of translation and export -/

theorem exportsOf_append (l₁ l₂ : List Ev) :
    exportsOf (l₁ ++ l₂) = exportsOf l₁ ++ exportsOf l₂ := by
  unfold exportsOf
  exact List.filterMap_append l₁ l₂ _

theorem exportsOf_cons_update (r : JobRecord) (l : List Ev) :
    exportsOf (Ev.update r :: l) = exportsOf l := rfl

theorem exportsOf_engine (remote : String → String → Except String String)
    (text lang : String) :
    exportsOf (engineTranslate remote text lang).2 = [] := by
  unfold engineTranslate
  split <;> rfl

theorem exportsOf_translateBlock (remote : String → String → Except String String)
    (p : Para) (lang : String) :
    exportsOf (translateBlock remote p lang).2 = [] := by
  unfold translateBlock
  dsimp only
  cases h : (engineTranslate remote p.text lang).1 <;>
    simpa [h] using exportsOf_engine remote p.text lang

theorem exportsOf_blocksLoop (remote : String → String → Except String String)
    (lang : String) (langIdx n L : Nat) :
    ∀ (ps : List Para) (i : Nat) (r : JobRecord),
      exportsOf (blocksLoop remote lang langIdx n L ps i r).1 = [] := by
  intro ps
  induction ps with
  | nil => intro i r; rfl
  | cons p rest ih =>
    intro i r
    cases htr : (translateBlock remote p lang).1 with
    | error e =>
      have heq : blocksLoop remote lang langIdx n L (p :: rest) i r
          = ((translateBlock remote p lang).2, r, Except.error e) := by
        simp only [blocksLoop, htr]
      rw [heq]
      exact exportsOf_translateBlock remote p lang
    | ok tp =>
      have heq : blocksLoop remote lang langIdx n L (p :: rest) i r
          = ((translateBlock remote p lang).2 ++
              [Ev.update { r with progress := progressAt langIdx i n L }] ++
              (blocksLoop remote lang langIdx n L rest (i + 1)
                { r with progress := progressAt langIdx i n L }).1,
             (blocksLoop remote lang langIdx n L rest (i + 1)
                { r with progress := progressAt langIdx i n L }).2.1,
             ((blocksLoop remote lang langIdx n L rest (i + 1)
                { r with progress := progressAt langIdx i n L }).2.2).map
               (fun ts => tp :: ts)) := by
        simp only [blocksLoop, htr]
      rw [heq]
      rw [exportsOf_append, exportsOf_append, exportsOf_translateBlock,
        ih (i + 1) { r with progress := progressAt langIdx i n L }]
      rfl

theorem blocksLoop_ok (remote : String → String → Except String String)
    (lang : String) (langIdx n L : Nat)
    (hok : ∀ t, ∃ out, remote t lang = Except.ok out) :
    ∀ (ps : List Para) (i : Nat) (r : JobRecord),
      ∃ ts, (blocksLoop remote lang langIdx n L ps i r).2.2 = Except.ok ts := by
  intro ps
  induction ps with
  | nil => intro i r; exact ⟨[], rfl⟩
  | cons p rest ih =>
    intro i r
    have htb : ∃ tp, (translateBlock remote p lang).1 = Except.ok tp := by
      unfold translateBlock engineTranslate
      dsimp only
      by_cases hg : p.text = "" ∨ pyStripStr p.text = ""
      · rw [if_pos hg]
        exact ⟨{ text := "", style := p.style }, rfl⟩
      · rw [if_neg hg]
        obtain ⟨out, hout⟩ := hok p.text
        rw [hout]
        exact ⟨{ text := out, style := p.style }, rfl⟩
    obtain ⟨tp, htr⟩ := htb
    have heq : blocksLoop remote lang langIdx n L (p :: rest) i r
        = ((translateBlock remote p lang).2 ++
            [Ev.update { r with progress := progressAt langIdx i n L }] ++
            (blocksLoop remote lang langIdx n L rest (i + 1)
              { r with progress := progressAt langIdx i n L }).1,
           (blocksLoop remote lang langIdx n L rest (i + 1)
              { r with progress := progressAt langIdx i n L }).2.1,
           ((blocksLoop remote lang langIdx n L rest (i + 1)
              { r with progress := progressAt langIdx i n L }).2.2).map
             (fun ts => tp :: ts)) := by
      simp only [blocksLoop, htr]
    obtain ⟨ts, hts⟩ := ih (i + 1) { r with progress := progressAt langIdx i n L }
    refine ⟨tp :: ts, ?_⟩
    rw [heq]
    simp [hts, Except.map]

theorem formatsLoop_ok
    (exportO : List Para → String → String → Except String Unit)
    (translated : List Para) (lang : String)
    (hex : ∀ tp fmt, exportO tp fmt lang = Except.ok ()) :
    ∀ fs : List String,
      (formatsLoop exportO translated lang fs).2 = Except.ok () ∧
      exportsOf (formatsLoop exportO translated lang fs).1 =
        fs.map (fun f => (lang, f)) := by
  intro fs
  induction fs with
  | nil => exact ⟨rfl, rfl⟩
  | cons fmt rest ih =>
    unfold formatsLoop
    rw [hex translated fmt]
    refine ⟨ih.1, ?_⟩
    show (lang, fmt) :: exportsOf (formatsLoop exportO translated lang rest).1 = _
    rw [ih.2]
    rfl

theorem blocksLoop_fail (remote : String → String → Except String String)
    (lang : String) (langIdx n L : Nat) (bad : Para) (tailRest : List Para)
    (i : Nat) (r : JobRecord) (e : String)
    (h1 : ¬ bad.text = "") (h2 : ¬ pyStripStr bad.text = "")
    (h3 : remote bad.text lang = Except.error e) :
    blocksLoop remote lang langIdx n L (bad :: tailRest) i r
      = ([Ev.translateCall bad.text lang], r, Except.error e) := by
  have htr : translateBlock remote bad lang
      = (Except.error e, [Ev.translateCall bad.text lang]) := by
    unfold translateBlock engineTranslate
    dsimp only
    rw [if_neg (by intro h; rcases h with h | h; exact h1 h; exact h2 h), h3]
  simp only [blocksLoop, htr]

theorem blocksLoop_fail_at (remote : String → String → Except String String)
    (lang : String) (langIdx n L : Nat) (bad : Para) (tailRest : List Para)
    (e : String)
    (h1 : ¬ bad.text = "") (h2 : ¬ pyStripStr bad.text = "")
    (h3 : remote bad.text lang = Except.error e) :
    ∀ (good : List Para) (i : Nat) (r : JobRecord),
      (∀ q ∈ good, q.text = "" ∨ pyStripStr q.text = "" ∨
        ∃ out, remote q.text lang = Except.ok out) →
      (blocksLoop remote lang langIdx n L (good ++ bad :: tailRest) i r).2.2
        = Except.error e := by
  intro good
  induction good with
  | nil =>
    intro i r _
    rw [List.nil_append,
      blocksLoop_fail remote lang langIdx n L bad tailRest i r e h1 h2 h3]
  | cons q good' ih =>
    intro i r hgood
    have hq := hgood q (List.mem_cons_self q good')
    have htb : ∃ tp, (translateBlock remote q lang).1 = Except.ok tp := by
      unfold translateBlock engineTranslate
      dsimp only
      rcases hq with hq | hq | ⟨out, hout⟩
      · rw [if_pos (Or.inl hq)]
        exact ⟨⟨"", q.style⟩, rfl⟩
      · rw [if_pos (Or.inr hq)]
        exact ⟨⟨"", q.style⟩, rfl⟩
      · by_cases hg : q.text = "" ∨ pyStripStr q.text = ""
        · rw [if_pos hg]
          exact ⟨⟨"", q.style⟩, rfl⟩
        · rw [if_neg hg, hout]
          exact ⟨⟨out, q.style⟩, rfl⟩
    obtain ⟨tp, htr⟩ := htb
    have h22 : (blocksLoop remote lang langIdx n L
        ((q :: good') ++ bad :: tailRest) i r).2.2
        = ((blocksLoop remote lang langIdx n L (good' ++ bad :: tailRest) (i + 1)
            { r with progress := progressAt langIdx i n L }).2.2).map
          (fun ts => tp :: ts) := by
      simp only [List.cons_append, blocksLoop, htr]
      rfl
    rw [h22, ih (i + 1) { r with progress := progressAt langIdx i n L }
      (fun q' hq' => hgood q' (List.mem_cons_of_mem q hq'))]
    rfl

theorem langsLoop_fail (remote : String → String → Except String String)
    (exportO : List Para → String → String → Except String Unit)
    (n L : Nat) (formats : List String) (lang : String) (after : List String)
    (good : List Para) (bad : Para) (tailRest : List Para) (e : String)
    (h1 : ¬ bad.text = "") (h2 : ¬ pyStripStr bad.text = "")
    (h3 : remote bad.text lang = Except.error e)
    (hgood : ∀ q ∈ good, q.text = "" ∨ pyStripStr q.text = "" ∨
      ∃ out, remote q.text lang = Except.ok out) :
    ∀ (before : List String) (langIdx : Nat) (r : JobRecord),
      (∀ l₁, l₁ ∈ before → ∀ t, ∃ out, remote t l₁ = Except.ok out) →
      (∀ l₁ tp fmt, l₁ ∈ before → exportO tp fmt l₁ = Except.ok ()) →
      (langsLoop remote exportO (good ++ bad :: tailRest) n L formats
          (before ++ lang :: after) langIdx r).2.2 = Except.error e ∧
      exportsOf (langsLoop remote exportO (good ++ bad :: tailRest) n L formats
          (before ++ lang :: after) langIdx r).1 =
        before.flatMap (fun l₁ => formats.map (fun f => (l₁, f))) := by
  intro before
  induction before with
  | nil =>
    intro langIdx r _ _
    have ht := blocksLoop_fail_at remote lang langIdx n L bad tailRest e
      h1 h2 h3 good 0 { r with status := "Translating " ++ pyTitle lang } hgood
    have heq : langsLoop remote exportO (good ++ bad :: tailRest) n L formats
        (([] : List String) ++ lang :: after) langIdx r
        = (Ev.update { r with status := "Translating " ++ pyTitle lang } ::
            (blocksLoop remote lang langIdx n L (good ++ bad :: tailRest) 0
              { r with status := "Translating " ++ pyTitle lang }).1,
           (blocksLoop remote lang langIdx n L (good ++ bad :: tailRest) 0
             { r with status := "Translating " ++ pyTitle lang }).2.1,
           Except.error e) := by
      simp only [List.nil_append, langsLoop, ht]
    rw [heq]
    refine ⟨rfl, ?_⟩
    rw [exportsOf_cons_update,
      exportsOf_blocksLoop remote lang langIdx n L (good ++ bad :: tailRest) 0]
    rfl
  | cons b bs ih =>
    intro langIdx r hok hex
    have hokb : ∀ t, ∃ out, remote t b = Except.ok out :=
      hok b (List.mem_cons_self b bs)
    have hexb : ∀ tp fmt, exportO tp fmt b = Except.ok () :=
      fun tp fmt => hex b tp fmt (List.mem_cons_self b bs)
    obtain ⟨ts, hts⟩ := blocksLoop_ok remote b langIdx n L hokb
      (good ++ bad :: tailRest) 0
      { r with status := "Translating " ++ pyTitle b }
    have hfl := formatsLoop_ok exportO ts b hexb formats
    have IH := ih (langIdx + 1)
      { (blocksLoop remote b langIdx n L (good ++ bad :: tailRest) 0
          { r with status := "Translating " ++ pyTitle b }).2.1 with
        status := "Exporting " ++ pyTitle b }
      (fun l₁ hl₁ t => hok l₁ (List.mem_cons_of_mem b hl₁) t)
      (fun l₁ tp fmt hl₁ => hex l₁ tp fmt (List.mem_cons_of_mem b hl₁))
    have heq : langsLoop remote exportO (good ++ bad :: tailRest) n L formats
        ((b :: bs) ++ lang :: after) langIdx r
        = ((((Ev.update { r with status := "Translating " ++ pyTitle b } ::
            (blocksLoop remote b langIdx n L (good ++ bad :: tailRest) 0
              { r with status := "Translating " ++ pyTitle b }).1) ++
            [Ev.update { (blocksLoop remote b langIdx n L (good ++ bad :: tailRest) 0
                { r with status := "Translating " ++ pyTitle b }).2.1 with
                status := "Exporting " ++ pyTitle b }]) ++
            (formatsLoop exportO ts b formats).1) ++
            (langsLoop remote exportO (good ++ bad :: tailRest) n L formats
              (bs ++ lang :: after) (langIdx + 1)
              { (blocksLoop remote b langIdx n L (good ++ bad :: tailRest) 0
                  { r with status := "Translating " ++ pyTitle b }).2.1 with
                status := "Exporting " ++ pyTitle b }).1,
           (langsLoop remote exportO (good ++ bad :: tailRest) n L formats
             (bs ++ lang :: after) (langIdx + 1)
             { (blocksLoop remote b langIdx n L (good ++ bad :: tailRest) 0
                 { r with status := "Translating " ++ pyTitle b }).2.1 with
               status := "Exporting " ++ pyTitle b }).2.1,
           (langsLoop remote exportO (good ++ bad :: tailRest) n L formats
             (bs ++ lang :: after) (langIdx + 1)
             { (blocksLoop remote b langIdx n L (good ++ bad :: tailRest) 0
                 { r with status := "Translating " ++ pyTitle b }).2.1 with
               status := "Exporting " ++ pyTitle b }).2.2) := by
      simp only [List.cons_append, langsLoop, hts, hfl.1]
      rfl
    rw [heq]
    refine ⟨IH.1, ?_⟩
    rw [exportsOf_append, exportsOf_append, exportsOf_append,
      exportsOf_cons_update,
      exportsOf_blocksLoop remote b langIdx n L (good ++ bad :: tailRest) 0,
      hfl.2, IH.2]
    simp [exportsOf]

/-- C1 (amended): languages are processed strictly sequentially, but each
language is translated and then exported before the next language begins.  When
the translation call for any block of the language lang fails — the earlier
blocks of lang having been translated or passed through the empty-text guard,
and every earlier language having translated and exported without error — the
job ends Failed carrying that error message, and the artifacts on storage are
exactly the (language, format) pairs of the languages before lang: none for
lang itself or any later language. -/
theorem per_language_failure_export_boundary
    (remote : String → String → Except String String)
    (exportO : List Para → String → String → Except String Unit)
    (before : List String) (lang : String) (after : List String)
    (formats : List String) (good : List Para) (bad : Para)
    (tailRest : List Para) (e : String) (b : Bool)
    (h1 : ¬ bad.text = "") (h2 : ¬ pyStripStr bad.text = "")
    (h3 : remote bad.text lang = Except.error e)
    (hgood : ∀ q ∈ good, q.text = "" ∨ pyStripStr q.text = "" ∨
      ∃ out, remote q.text lang = Except.ok out)
    (hok : ∀ l₁, l₁ ∈ before → ∀ t, ∃ out, remote t l₁ = Except.ok out)
    (hex : ∀ l₁ tp fmt, l₁ ∈ before → exportO tp fmt l₁ = Except.ok ()) :
    (runWorkflow remote exportO (Except.ok (good ++ bad :: tailRest))
        (before ++ lang :: after) formats b).2.status = "Failed" ∧
    (runWorkflow remote exportO (Except.ok (good ++ bad :: tailRest))
        (before ++ lang :: after) formats b).2.error = true ∧
    (runWorkflow remote exportO (Except.ok (good ++ bad :: tailRest))
        (before ++ lang :: after) formats b).2.complete = true ∧
    (runWorkflow remote exportO (Except.ok (good ++ bad :: tailRest))
        (before ++ lang :: after) formats b).2.message = e ∧
    exportsOf (runWorkflow remote exportO (Except.ok (good ++ bad :: tailRest))
        (before ++ lang :: after) formats b).1 =
      before.flatMap (fun l₁ => formats.map (fun f => (l₁, f))) := by
  have lf := langsLoop_fail remote exportO (good ++ bad :: tailRest).length
    (before ++ lang :: after).length formats lang after good bad tailRest e
    h1 h2 h3 hgood before 0 (⟨"Extracting text", 5, false, false, ""⟩ : JobRecord)
    hok hex
  have hne : (good ++ bad :: tailRest).isEmpty = false := by
    cases good <;> rfl
  have heq : runWorkflow remote exportO (Except.ok (good ++ bad :: tailRest))
      (before ++ lang :: after) formats b
      = (((Ev.update (⟨"Extracting text", 5, false, false, ""⟩ : JobRecord) ::
          (langsLoop remote exportO (good ++ bad :: tailRest)
            (good ++ bad :: tailRest).length
            (before ++ lang :: after).length formats (before ++ lang :: after) 0
            (⟨"Extracting text", 5, false, false, ""⟩ : JobRecord)).1) ++
          [Ev.update (failRec (langsLoop remote exportO (good ++ bad :: tailRest)
            (good ++ bad :: tailRest).length (before ++ lang :: after).length
            formats (before ++ lang :: after) 0
            (⟨"Extracting text", 5, false, false, ""⟩ : JobRecord)).2.1 e)]) ++
          (if b then [Ev.deleteSource] else []),
         failRec (langsLoop remote exportO (good ++ bad :: tailRest)
           (good ++ bad :: tailRest).length (before ++ lang :: after).length
           formats (before ++ lang :: after) 0
           (⟨"Extracting text", 5, false, false, ""⟩ : JobRecord)).2.1 e) := by
    simp only [runWorkflow, hne, lf.1]
    rfl
  rw [heq]
  refine ⟨rfl, rfl, rfl, rfl, ?_⟩
  have hclean : ∀ l : List Ev,
      exportsOf (l ++ (if b then [Ev.deleteSource] else [])) = exportsOf l := by
    intro l
    cases b <;> simp [exportsOf_append, exportsOf]
  rw [hclean, exportsOf_append, exportsOf_cons_update, lf.2]
  simp [exportsOf]

/-- C1 amended witness: languages spanish then german with one format, a
two-block document, and a remote oracle that fails only on the second block of
german after the first block of german succeeded.  The run ends Failed with the
german error and the artifact list is exactly the spanish docx pair, showing
the boundary theorem at a failure in the middle of a language, not at its first
block. -/
theorem per_language_failure_export_boundary_witness :
    (runWorkflow
        (fun t l => if l = "german" ∧ t = "world" then Except.error "net down"
          else Except.ok "hola")
        (fun _ _ _ => Except.ok ())
        (Except.ok [⟨"hello", "Normal"⟩, ⟨"world", "Normal"⟩])
        ["spanish", "german"] ["docx"] true).2.status = "Failed" ∧
    (runWorkflow
        (fun t l => if l = "german" ∧ t = "world" then Except.error "net down"
          else Except.ok "hola")
        (fun _ _ _ => Except.ok ())
        (Except.ok [⟨"hello", "Normal"⟩, ⟨"world", "Normal"⟩])
        ["spanish", "german"] ["docx"] true).2.error = true ∧
    (runWorkflow
        (fun t l => if l = "german" ∧ t = "world" then Except.error "net down"
          else Except.ok "hola")
        (fun _ _ _ => Except.ok ())
        (Except.ok [⟨"hello", "Normal"⟩, ⟨"world", "Normal"⟩])
        ["spanish", "german"] ["docx"] true).2.complete = true ∧
    (runWorkflow
        (fun t l => if l = "german" ∧ t = "world" then Except.error "net down"
          else Except.ok "hola")
        (fun _ _ _ => Except.ok ())
        (Except.ok [⟨"hello", "Normal"⟩, ⟨"world", "Normal"⟩])
        ["spanish", "german"] ["docx"] true).2.message = "net down" ∧
    exportsOf (runWorkflow
        (fun t l => if l = "german" ∧ t = "world" then Except.error "net down"
          else Except.ok "hola")
        (fun _ _ _ => Except.ok ())
        (Except.ok [⟨"hello", "Normal"⟩, ⟨"world", "Normal"⟩])
        ["spanish", "german"] ["docx"] true).1 =
      ["spanish"].flatMap (fun l₁ => ["docx"].map (fun f => (l₁, f))) :=
  per_language_failure_export_boundary
    (fun t l => if l = "german" ∧ t = "world" then Except.error "net down"
      else Except.ok "hola")
    (fun _ _ _ => Except.ok ())
    ["spanish"] "german" [] ["docx"] [⟨"hello", "Normal"⟩] ⟨"world", "Normal"⟩
    [] "net down" true
    (by decide) (by decide) rfl
    (by
      intro q hq
      have hq2 : q = (⟨"hello", "Normal"⟩ : Para) := by simpa using hq
      subst hq2
      exact Or.inr (Or.inr ⟨"hola", rfl⟩))
    (by
      intro l₁ hl₁ t
      have : l₁ = "spanish" := by simpa using hl₁
      subst this
      exact ⟨"hola", rfl⟩)
    (fun l₁ tp fmt hl₁ => rfl)
